import Mathlib

/-!
Verification of the sequential-selecter image decode / thumbnail / preview
pipeline against its specification.

The definitions below are a shallow embedding of the Python sources:

* `src/src/core/image_loader.py` (the current decoder, `load_pil_image`),
* the legacy decoder `load_pil_image` in `sqs.py`,
* the worker tasks and generation logic in `src/src/gui/main_window.py`
  (`_load_thumbnail_task`, `_apply_thumbnail`, `load_preview`,
  `_load_preview_task`, `_on_preview_ready`, `_do_thumb_reload`),
* the preview LRU cache discipline of `set_preview_slot` in `sqs.py`,
* Pillow's `Image.thumbnail` size computation, which both decoders call.

An image is modelled by its pixel dimensions; each external library call a
decoder makes is a field of `FileModel` recording what that call would
return for the file (`none` / `Except.error` meaning the call raises).
Exceptions are modelled with `Except Unit`: `.error ()` is a Python
exception propagating out of the modelled region.
-/

/-- A decoded image, abstracted to its dimensions. -/
structure Img where
  w : Nat
  h : Nat
deriving DecidableEq, Repr

/-- Model of one image file on disk, as seen through the library calls the
decoders make.  `none` (or `.error ()`) means the corresponding call raises. -/
structure FileModel where
  /-- `path.suffix` as written (the code lowercases it before dispatch). -/
  ext : String
  /-- `pillow_heif.read_heif` + `Image.frombytes`. -/
  heifDecode : Option Img
  /-- whether `rawpy.imread` succeeds. -/
  rawOpen : Bool
  /-- `raw.extract_thumb` plus conversion: `.error` = raises, `.ok none` =
  thumb format neither JPEG nor BITMAP, `.ok (some t)` = usable thumb. -/
  rawThumbRes : Except Unit (Option Img)
  /-- `raw.postprocess` with `half_size=True`. -/
  rawPostHalf : Option Img
  /-- `raw.postprocess` with `half_size=False`. -/
  rawPostFull : Option Img
  /-- `Image.open` + `img.load()`. -/
  stdDecode : Option Img
  /-- `ImageOps.exif_transpose` (wrapped in try/except that keeps the
  original image on failure, so modelled as a total function). -/
  exifT : Img → Img

/-- Extensions dispatched to the HEIF branch. -/
def heifExts : List String := [".heif", ".heic"]

/-- RAW extensions recognized by `src/src/core/image_loader.py`. -/
def rawExtsSrc : List String :=
  [".arw", ".cr2", ".cr3", ".nef", ".rw2", ".orf", ".raf", ".dng", ".srw"]

/-- RAW extensions recognized by the legacy loader in `sqs.py`
(no `.srw`). -/
def rawExtsSqs : List String :=
  [".arw", ".cr2", ".cr3", ".nef", ".rw2", ".orf", ".raf", ".dng"]

/-- `path.suffix.lower()`: lowercase applied character by character (the
extensions involved are ASCII). -/
def strLower (s : String) : String := ⟨s.data.map Char.toLower⟩

/-- Pillow's `round_aspect(number, key)` =
`max(min(math.floor(number), math.ceil(number), key=key), 1)` for the first
branch of `Image.thumbnail`, where `number = ty * aspect = num / den`
(`num = ty * w`, `den = h`) and `key n = abs(aspect - n / ty)`.  The real
arithmetic is carried out exactly: both key values share the denominator
`h * ty`, so the comparison reduces to comparing `abs(num - n * den)`. -/
def round_aspect_same (num den : Nat) : Nat :=
  let fl := num / den
  let ce := (num + den - 1) / den
  max (if ((num : ℤ) - fl * den).natAbs ≤ ((num : ℤ) - ce * den).natAbs
       then fl else ce) 1

/-- Pillow's `round_aspect` for the second branch of `Image.thumbnail`,
where `number = tx / aspect = (tx * h) / w` and
`key n = 0 if n == 0 else abs(aspect - tx / n)`.  Exact arithmetic again:
for `n, m > 0`, `key n <= key m` iff
`abs(w * n - tx * h) * m <= abs(w * m - tx * h) * n`, and a zero floor has
key `0`, hence always wins the `min`. -/
def round_aspect_flip (tx w h : Nat) : Nat :=
  let num := tx * h
  let fl := num / w
  let ce := (num + w - 1) / w
  max (if fl = 0 then fl
       else if ((w : ℤ) * fl - tx * h).natAbs * ce ≤
               ((w : ℤ) * ce - tx * h).natAbs * fl
       then fl else ce) 1

/-- Pillow's `Image.thumbnail` target-size computation
(`preserve_aspect_ratio`): no-op when the image already fits, otherwise
scale to the target box preserving aspect ratio, each dimension rounded to
the nearer of floor/ceil and clamped to at least 1.  Returns `none` when
the Python code would raise `ZeroDivisionError`.  The float divisions
`aspect = w / h` and `x / y` are modelled exactly: the branch test
`x / y >= aspect` becomes `w * ty <= tx * h`. -/
def pil_thumbnail (img : Img) (tx ty : Nat) : Option Img :=
  if img.w ≤ tx ∧ img.h ≤ ty then
    some img
  else if img.h = 0 then
    none
  else if ty = 0 then
    none
  else if img.w * ty ≤ tx * img.h then
    some ⟨round_aspect_same (ty * img.w) img.h, ty⟩
  else
    some ⟨tx, round_aspect_flip tx img.w img.h⟩

/-- The embedded-thumbnail resolution check of
`src/src/core/image_loader.py`: discard the thumb when it is smaller than
the requested size. -/
def thumbAfterCheck (t : Option Img) (max_size : Option Nat) : Option Img :=
  match t, max_size with
  | some tb, some s => if max tb.w tb.h < s then none else some tb
  | tb, _ => tb

/-- The `use_half` selection in `src/src/core/image_loader.py`:
`use_half = True; if max_size is not None and max_size > 3000: use_half = False`. -/
def use_half_select (max_size : Option Nat) : Bool :=
  match max_size with
  | some s => ! decide (s > 3000)
  | none => true

/-- View of `rawThumbRes` as the current loader sees it: an exception during
thumb extraction is caught (`except Exception: pass`) and leaves no image,
exactly like an unusable thumb format. -/
def rawThumbOfRes : Except Unit (Option Img) → Option Img
  | .ok t => t
  | .error _ => none

/-- The RAW branch of `src/src/core/image_loader.py`: embedded thumb first
(with the resolution check), then `postprocess` with adaptive `half_size`.
The whole branch is wrapped in try/except blocks that swallow every error,
so it returns `none` rather than raising. -/
def rawBranchSrc (f : FileModel) (max_size : Option Nat) : Option Img :=
  if f.rawOpen then
    match thumbAfterCheck (rawThumbOfRes f.rawThumbRes) max_size with
    | some t => some t
    | none => if use_half_select max_size then f.rawPostHalf else f.rawPostFull
  else none

/-- Stage 1-4 of `load_pil_image` in `src/src/core/image_loader.py`:
extension dispatch, the final `Image.open` fallback, and EXIF orientation —
everything up to (not including) the resize step.  `.error ()` is an
exception that would propagate to the outer `try`. -/
def decodeStage (f : FileModel) (max_size : Option Nat) : Except Unit Img :=
  let ext := strLower f.ext
  let dispatched : Except Unit (Option Img) :=
    if ext ∈ heifExts then
      match f.heifDecode with
      | none => .error ()
      | some i => .ok (some i)
    else if ext ∈ rawExtsSrc then
      .ok (rawBranchSrc f max_size)
    else
      match f.stdDecode with
      | none => .error ()
      | some i => .ok (some i)
  match dispatched with
  | .error e => .error e
  | .ok img0 =>
    match img0 with
    | some i => .ok (f.exifT i)
    | none =>
      match f.stdDecode with
      | none => .error ()
      | some i => .ok (f.exifT i)

/-- The resize step of `load_pil_image` in `src/src/core/image_loader.py`:
`if w > max_size or h > max_size: img.thumbnail((max_size, max_size), BILINEAR)`. -/
def resizeStage (max_size : Option Nat) (i : Img) : Except Unit Img :=
  match max_size with
  | none => .ok i
  | some s =>
    if i.w > s ∨ i.h > s then
      match pil_thumbnail i s s with
      | none => .error ()
      | some r => .ok r
    else .ok i

/-- Body of the outer `try` of `load_pil_image` in
`src/src/core/image_loader.py`. -/
def loadBodySrc (f : FileModel) (max_size : Option Nat) : Except Unit Img :=
  match decodeStage f max_size with
  | .error e => .error e
  | .ok i => resizeStage max_size i

/-- `load_pil_image` in `src/src/core/image_loader.py` with its outer
`try ... except Exception: return None`, still at the exception-explicit
level: an `.error` result would be an exception escaping the function. -/
def load_pil_image_exc (f : FileModel) (max_size : Option Nat) :
    Except Unit (Option Img) :=
  match loadBodySrc f max_size with
  | .ok i => .ok (some i)
  | .error _ => .ok none

/-- `load_pil_image` of `src/src/core/image_loader.py` as its callers see
it: an optional image. -/
def load_pil_image (f : FileModel) (max_size : Option Nat) : Option Img :=
  match load_pil_image_exc f max_size with
  | .ok v => v
  | .error _ => none

/-!  The legacy decoder `load_pil_image` in `sqs.py`.  It has no outer
catch-all; its RAW branch tries the NEF-specific thumb-first path, then
`postprocess(half_size=True)` with a thumb fallback, then HEIF, then
`Image.open`, and re-raises the final failure. -/

/-- The RAW branch of `sqs.py`'s `load_pil_image` up to (not including) the
HEIF / `Image.open` fallbacks; every failure inside is swallowed into
`none`. -/
def rawBranchSqs (f : FileModel) : Option Img :=
  let nefImg : Option Img :=
    if strLower f.ext = ".nef" ∧ f.rawOpen then
      match f.rawThumbRes with
      | .error _ => none
      | .ok (some t) => some t
      | .ok none => f.rawPostHalf
    else none
  match nefImg with
  | some i => some i
  | none =>
    if f.rawOpen then
      match f.rawPostHalf with
      | some i => some i
      | none =>
        match f.rawThumbRes with
        | .ok (some t) => some t
        | _ => none
    else none

/-- `load_pil_image` in `sqs.py`.  An `.error` result is an exception
escaping the function (it has no outer catch-all, and its final fallback
ends in `raise`). -/
def loadPilImageSqs (f : FileModel) (max_size : Option Nat) : Except Unit Img :=
  let ext := strLower f.ext
  let decoded : Except Unit Img :=
    if ext ∈ heifExts then
      match f.heifDecode with
      | none => .error ()
      | some i => .ok i
    else if ext ∈ rawExtsSqs then
      match rawBranchSqs f with
      | some i => .ok i
      | none =>
        match f.heifDecode with
        | some i => .ok i
        | none =>
          match f.stdDecode with
          | some i => .ok i
          | none => .error ()
    else
      match f.stdDecode with
      | none => .error ()
      | some i => .ok i
  match decoded with
  | .error e => .error e
  | .ok i0 =>
    let i1 := f.exifT i0
    match max_size with
    | none => .ok i1
    | some s =>
      match pil_thumbnail i1 s s with
      | none => .error ()
      | some r => .ok r

/-!  Worker tasks of `src/src/gui/main_window.py`.

`_load_thumbnail_task(path, size, version)` checks
`version != self.thumb_load_version` on entry, decodes, and emits
`thumbnail_loaded` only if `version == self.thumb_load_version` still holds
after the decode; any exception is swallowed.  `_load_preview_task` decodes
and emits `preview_ready` whenever the decode succeeded, with no version
check at all.  Each task emits at most one signal, so its emissions are an
`Option`. -/

/-- Payload of a `thumbnail_loaded` emission. -/
structure ThumbEmit where
  path : String
  img : Img
deriving DecidableEq, Repr

/-- Payload of a `preview_ready` emission. -/
structure PrevEmit where
  path : String
  slot : Nat
  img : Img
deriving DecidableEq, Repr

/-- `_load_thumbnail_task` in `src/src/gui/main_window.py`.  `decodeRes` is
the outcome of `load_pil_image` (with `pil_to_qimage`); `v1` and `v2` are
the values of `self.thumb_load_version` at the two reads (they differ when
`refresh_grid_images` or `load_folder_grid` bumps the counter while the
decode is running); `captured` is the version the task was submitted with. -/
def loadThumbnailTask (path : String) (decodeRes : Option Img)
    (captured v1 v2 : Nat) : Option ThumbEmit :=
  if captured ≠ v1 then none
  else
    match decodeRes with
    | none => none
    | some i => if captured = v2 then some ⟨path, i⟩ else none

/-- `_load_preview_task` in `src/src/gui/main_window.py`: emit on success,
print and emit nothing on failure. -/
def loadPreviewTask (path : String) (slot : Nat) (decodeRes : Option Img) :
    Option PrevEmit :=
  match decodeRes with
  | none => none
  | some i => some ⟨path, slot, i⟩

/-- `preview_executor = ThreadPoolExecutor(max_workers=2)` in
`src/src/gui/main_window.py`. -/
def previewPoolWorkers : Nat := 2

/-- `max_workers = min(cpu, 8)` for the thumbnail pool in
`src/src/gui/main_window.py`. -/
def thumbPoolWorkers (cpu : Nat) : Nat := min cpu 8

/-- `load_preview` in `src/src/gui/main_window.py` either applies a cached
image directly (no decode) or submits `_load_preview_task` to the preview
executor; the submission carries only the path and the slot. -/
inductive PreviewAction where
  | applyCached (img : Img)
  | submitPreviewPool (path : String) (slot : Nat)
deriving DecidableEq, Repr

/-- The cache consultation of `load_preview`:
`self._preview_cache.get(str(path))` — a plain `OrderedDict.get`, which
does not reorder entries. -/
def cacheGet (cache : List (String × Img)) (key : String) : Option Img :=
  List.lookup key cache

/-- `load_preview(path, slot_idx)` in `src/src/gui/main_window.py`. -/
def load_preview (cache : List (String × Img)) (path : String) (slot : Nat) :
    PreviewAction :=
  match cacheGet cache path with
  | some i => .applyCached i
  | none => .submitPreviewPool path slot

/-!  Interleaving model of the generation-tagged pipeline in
`src/src/gui/main_window.py`.

A thumbnail request is submitted with the current `thumb_load_version`
captured (`load_folder_grid` / `refresh_grid_images`); the worker
(`_load_thumbnail_task`) compares that captured version against the live
counter once on entry and once after the decode, and emits only if the
second comparison succeeds; `_apply_thumbnail` then applies the emitted
result on the interactive thread with no further check.  Preview requests
(`load_preview` → `_load_preview_task` → `_on_preview_ready`) carry no
version at all and are applied unconditionally.  Each applied record keeps,
as ghost data, the value of the counter at emission (`emitVer`) and at
application (`applyVer`). -/

/-- A submitted thumbnail request with its captured generation. -/
structure ThumbReq where
  path : String
  captured : Nat
deriving DecidableEq, Repr

/-- An emitted `thumbnail_loaded` signal waiting on the interactive thread;
`emitVer` records the live counter at the moment of the (passed) emit
check. -/
structure ThumbDone where
  path : String
  captured : Nat
  emitVer : Nat
deriving DecidableEq, Repr

/-- A submitted preview request (no generation is captured: the code
submits only `(path, slot_idx)`). -/
structure PrevReq where
  path : String
  slot : Nat
deriving DecidableEq, Repr

/-- A thumbnail result applied by `_apply_thumbnail`; `applyVer` records the
live counter at application time. -/
structure AppliedThumb where
  path : String
  captured : Nat
  emitVer : Nat
  applyVer : Nat
deriving DecidableEq, Repr

/-- A preview result applied by `_on_preview_ready`. -/
structure AppliedPrev where
  path : String
  slot : Nat
  applyVer : Nat
deriving DecidableEq, Repr

/-- State of the pipeline: the generation counter plus the queues a request
passes through on its way to presentation state. -/
structure PipelineState where
  ver : Nat
  thumbPending : List ThumbReq
  thumbStarted : List ThumbReq
  thumbEmitted : List ThumbDone
  prevPending : List PrevReq
  prevEmitted : List PrevReq
  appliedThumbs : List AppliedThumb
  appliedPrevs : List AppliedPrev
deriving DecidableEq, Repr

/-- Initial pipeline state (`thumb_load_version = 0`, everything empty). -/
def initPipeline : PipelineState := ⟨0, [], [], [], [], [], [], []⟩

/-- One atomic scheduling event.  `startThumb` is the worker's entry check
`if version != self.thumb_load_version: return`; `finishThumb ok` is the
decode outcome (`ok`) followed by the emit-time check
`if version == self.thumb_load_version`; `deliverThumb` is
`_apply_thumbnail` (no check); `finishPrev` / `deliverPrev` are the
check-free preview counterparts; `bump` is `self.thumb_load_version += 1`. -/
inductive PEvent where
  | submitThumb (path : String)
  | bump
  | startThumb
  | finishThumb (ok : Bool)
  | deliverThumb
  | submitPrev (path : String) (slot : Nat)
  | finishPrev (ok : Bool)
  | deliverPrev
deriving DecidableEq, Repr

/-- Small-step transition of the pipeline model. -/
def pstep (s : PipelineState) : PEvent → PipelineState
  | .submitThumb p =>
    { s with thumbPending := s.thumbPending ++ [⟨p, s.ver⟩] }
  | .bump => { s with ver := s.ver + 1 }
  | .startThumb =>
    match s.thumbPending with
    | [] => s
    | r :: rest =>
      if r.captured = s.ver then
        { s with thumbPending := rest, thumbStarted := s.thumbStarted ++ [r] }
      else { s with thumbPending := rest }
  | .finishThumb ok =>
    match s.thumbStarted with
    | [] => s
    | r :: rest =>
      if ok = true ∧ r.captured = s.ver then
        { s with thumbStarted := rest,
                 thumbEmitted := s.thumbEmitted ++ [⟨r.path, r.captured, s.ver⟩] }
      else { s with thumbStarted := rest }
  | .deliverThumb =>
    match s.thumbEmitted with
    | [] => s
    | e :: rest =>
      { s with thumbEmitted := rest,
               appliedThumbs := s.appliedThumbs ++ [⟨e.path, e.captured, e.emitVer, s.ver⟩] }
  | .submitPrev p slot =>
    { s with prevPending := s.prevPending ++ [⟨p, slot⟩] }
  | .finishPrev ok =>
    match s.prevPending with
    | [] => s
    | r :: rest =>
      if ok = true then
        { s with prevPending := rest, prevEmitted := s.prevEmitted ++ [r] }
      else { s with prevPending := rest }
  | .deliverPrev =>
    match s.prevEmitted with
    | [] => s
    | r :: rest =>
      { s with prevEmitted := rest,
               appliedPrevs := s.appliedPrevs ++ [⟨r.path, r.slot, s.ver⟩] }

/-- Run the pipeline model on a list of events from the initial state. -/
def runPipeline (evs : List PEvent) : PipelineState :=
  evs.foldl pstep initPipeline

/-!  The preview LRU cache, from `set_preview_slot` in `sqs.py`:

```text
if cache_key in self._preview_cache:
    img = self._preview_cache.pop(cache_key)
    self._preview_cache[cache_key] = img
else:
    img = load_pil_image(path, max_size=None)
    if len(self._preview_cache) >= self._cache_capacity:
        self._preview_cache.popitem(last=False)
    self._preview_cache[cache_key] = img
```

The `OrderedDict` is modelled as a list ordered oldest-access first;
`popitem(last=False)` removes the head; reinsertion appends at the tail. -/

/-- `self._cache_capacity = 20`. -/
def cacheCapacity : Nat := 20

/-- One preview-slot access to `key` (the sqs.py cache discipline); on a
miss the freshly decoded image is `loaded`. -/
def previewCacheAccess (cache : List (String × Img)) (key : String)
    (loaded : Img) : List (String × Img) :=
  match List.lookup key cache with
  | some i => cache.eraseP (fun e => e.1 == key) ++ [(key, i)]
  | none =>
    (if cacheCapacity ≤ cache.length then cache.tail else cache) ++ [(key, loaded)]

/-- The cache contents after a sequence of accesses starting from an empty
cache. -/
def previewCacheRun (ops : List (String × Img)) : List (String × Img) :=
  ops.foldl (fun c op => previewCacheAccess c op.1 op.2) []

/-- Modelled from the spec: a cache entry with an explicit last-access
timestamp (`CacheEntry.last_access_order` of the data model; the code keeps
recency only implicitly, as `OrderedDict` insertion order). -/
structure StampedEntry where
  key : String
  img : Img
  stamp : Nat
deriving DecidableEq, Repr

/-- Forget the timestamp of a stamped entry. -/
def StampedEntry.toPair (e : StampedEntry) : String × Img := (e.key, e.img)

/-- The cache access with ghost timestamps: identical to
`previewCacheAccess` on the key/image parts, but every touched entry is
stamped with the current clock value. -/
def stampedAccess (st : List StampedEntry × Nat) (key : String)
    (loaded : Img) : List StampedEntry × Nat :=
  let c := st.1
  let clock := st.2
  match c.find? (fun e => e.key == key) with
  | some e => (c.eraseP (fun e1 => e1.key == key) ++ [⟨key, e.img, clock⟩], clock + 1)
  | none =>
    ((if cacheCapacity ≤ c.length then c.tail else c) ++ [⟨key, loaded, clock⟩],
      clock + 1)

/-- The stamped cache after a sequence of accesses from an empty cache. -/
def stampedRun (ops : List (String × Img)) : List StampedEntry × Nat :=
  ops.foldl (fun st op => stampedAccess st op.1 op.2) ([], 0)

/-!  The resize debouncer: `_do_thumb_reload`, in both its current form
(`src/src/gui/main_window.py`) and its legacy form (`sqs.py`). -/

/-- The state `_do_thumb_reload` reads and writes. -/
structure ReloadState where
  pendingThumbSize : Option Nat
  currentFolderOpen : Bool
  lastLoadedThumbSize : Nat
deriving DecidableEq, Repr

/-- `_do_thumb_reload` in `src/src/gui/main_window.py`:
reload iff `abs(pending - last_loaded) > 50`; on reload, record the new
size (the pending size is not cleared).  The boolean is whether
`refresh_grid_images` was called. -/
def doThumbReload (st : ReloadState) : ReloadState × Bool :=
  match st.pendingThumbSize, st.currentFolderOpen with
  | some p, true =>
    let diff := ((p : ℤ) - (st.lastLoadedThumbSize : ℤ)).natAbs
    if 50 < diff then ({ st with lastLoadedThumbSize := p }, true)
    else (st, false)
  | _, _ => (st, false)

/-- `_do_thumb_reload` in `sqs.py`: clear the pending size, return unless
`new_size > last_loaded` (with `last_loaded` truthy), else record and
reload. -/
def doThumbReloadSqs (st : ReloadState) : ReloadState × Bool :=
  match st.pendingThumbSize, st.currentFolderOpen with
  | some p, true =>
    if st.lastLoadedThumbSize ≠ 0 ∧ p ≤ st.lastLoadedThumbSize then
      ({ st with pendingThumbSize := none }, false)
    else
      ({ st with pendingThumbSize := none, lastLoadedThumbSize := p }, true)
  | _, _ => (st, false)

/-!  ### Theorems

Claim formalizations and proofs, C1 to C10.  Ghost fields (`emitVer`,
`applyVer`, `stamp`) appear only in statements; the step functions fill
them with the live counter values. -/

/-- Claim C1 as the spec states it: a decode result is applied only when
its captured generation equals the generation current at delivery time
(so a bump between submission and delivery always suppresses it). -/
def generationCheckedAtDelivery : Prop :=
  ∀ evs : List PEvent, ∀ r ∈ (runPipeline evs).appliedThumbs,
    r.captured = r.applyVer

/-- Claim C1, counterexample: submit a thumbnail at generation 0, let the
worker pass both checks and emit, bump the generation, then deliver —
`_apply_thumbnail` re-checks nothing, so the stale result is applied with
captured generation 0 at current generation 1. -/
theorem generation_not_checked_at_delivery : ¬ generationCheckedAtDelivery := by
  intro h
  have h2 := h [.submitThumb "a", .startThumb, .finishThumb true, .bump,
      .deliverThumb] ⟨"a", 0, 0, 1⟩ (by decide)
  exact absurd h2 (by decide)

/-- Helper for C1: one pipeline step preserves the invariant that every
emitted or applied thumbnail result passed the emit-time generation check. -/
theorem pstep_preserves_emit_check (s : PipelineState) (ev : PEvent)
    (h1 : ∀ e ∈ s.thumbEmitted, e.captured = e.emitVer)
    (h2 : ∀ r ∈ s.appliedThumbs, r.captured = r.emitVer) :
    (∀ e ∈ (pstep s ev).thumbEmitted, e.captured = e.emitVer) ∧
    (∀ r ∈ (pstep s ev).appliedThumbs, r.captured = r.emitVer) := by
  cases ev with
  | submitThumb p => exact ⟨h1, h2⟩
  | bump => exact ⟨h1, h2⟩
  | startThumb =>
    cases hp : s.thumbPending with
    | nil => simpa [pstep, hp] using ⟨h1, h2⟩
    | cons r rest =>
      by_cases hc : r.captured = s.ver <;> simp [pstep, hp, hc] <;>
        exact ⟨h1, h2⟩
  | finishThumb ok =>
    cases hp : s.thumbStarted with
    | nil => simpa [pstep, hp] using ⟨h1, h2⟩
    | cons r rest =>
      by_cases hc : ok = true ∧ r.captured = s.ver
      · refine ⟨?_, by simpa [pstep, hp, hc] using h2⟩
        intro e he
        simp [pstep, hp, hc] at he
        rcases he with he | he
        · exact h1 e he
        · simp [he, hc.2]
      · simpa [pstep, hp, hc] using ⟨h1, h2⟩
  | deliverThumb =>
    cases hp : s.thumbEmitted with
    | nil =>
      exact ⟨fun e he => h1 e (by simp [pstep, hp] at he),
        fun r hr => h2 r (by simpa [pstep, hp] using hr)⟩
    | cons e rest =>
      constructor
      · intro e1 he1
        have he1m : e1 ∈ rest := by simpa [pstep, hp] using he1
        exact h1 e1 (by simp [hp, he1m])
      · intro r hr
        have hr2 : r ∈ s.appliedThumbs ∨ r = ⟨e.path, e.captured, e.emitVer, s.ver⟩ := by
          simpa [pstep, hp, List.mem_append] using hr
        rcases hr2 with hr2 | hr2
        · exact h2 r hr2
        · have h3 := h1 e (by simp [hp])
          simp [hr2, h3]
  | submitPrev p slot => exact ⟨h1, h2⟩
  | finishPrev ok =>
    cases hp : s.prevPending with
    | nil => simpa [pstep, hp] using ⟨h1, h2⟩
    | cons r rest =>
      by_cases hc : ok = true <;> simp [pstep, hp, hc] <;> exact ⟨h1, h2⟩
  | deliverPrev =>
    cases hp : s.prevEmitted with
    | nil => simpa [pstep, hp] using ⟨h1, h2⟩
    | cons r rest => simpa [pstep, hp] using ⟨h1, h2⟩

/-- Helper for C1: the emit-check invariant holds along any event fold. -/
theorem foldl_preserves_emit_check (evs : List PEvent) :
    ∀ s : PipelineState,
      (∀ e ∈ s.thumbEmitted, e.captured = e.emitVer) →
      (∀ r ∈ s.appliedThumbs, r.captured = r.emitVer) →
      (∀ e ∈ (evs.foldl pstep s).thumbEmitted, e.captured = e.emitVer) ∧
      (∀ r ∈ (evs.foldl pstep s).appliedThumbs, r.captured = r.emitVer) := by
  induction evs with
  | nil => exact fun s h1 h2 => ⟨h1, h2⟩
  | cons ev rest ih =>
    intro s h1 h2
    have h3 := pstep_preserves_emit_check s ev h1 h2
    exact ih (pstep s ev) h3.1 h3.2

/-- Claim C1 (amended): the generation check protecting presentation state
happens at emit time, not at delivery time — every thumbnail result ever
applied had its captured generation equal to the generation current when
the worker emitted it (a bump before the emit check suppresses the
result); preview results carry no generation at all. -/
theorem applied_thumb_generation_checked_at_emit (evs : List PEvent)
    (r : AppliedThumb) (hr : r ∈ (runPipeline evs).appliedThumbs) :
    r.captured = r.emitVer :=
  (foldl_preserves_emit_check evs initPipeline (by simp [initPipeline])
    (by simp [initPipeline])).2 r hr

/-- Witness for C1's amended theorem at a concrete trace. -/
theorem applied_thumb_generation_checked_at_emit_witness :
    (AppliedThumb.mk "a" 0 0 0).captured = (AppliedThumb.mk "a" 0 0 0).emitVer :=
  applied_thumb_generation_checked_at_emit
    [.submitThumb "a", .startThumb, .finishThumb true, .deliverThumb]
    ⟨"a", 0, 0, 0⟩ (by decide)

/-- Claim C3, counterexample: with the generation fully current
(`captured = v1 = v2 = 5`), a failed decode delivers nothing at all — no
`DecodeError` is ever produced, the item is simply left unresolved. -/
theorem failed_decode_delivers_nothing :
    loadThumbnailTask "a" none 5 5 5 = none ∧ loadPreviewTask "a" 0 none = none :=
  ⟨rfl, rfl⟩

/-- Claim C3 (amended): each worker task delivers at most one result, and
delivers exactly one iff the decode succeeded (and, for thumbnails, the
captured generation matched at both checks); failed decodes deliver
nothing. -/
theorem task_delivery_characterization (path : String) (dec : Option Img)
    (captured v1 v2 slot : Nat) :
    ((loadThumbnailTask path dec captured v1 v2).isSome ↔
      captured = v1 ∧ captured = v2 ∧ dec.isSome)
    ∧ (dec = none → loadThumbnailTask path dec captured v1 v2 = none)
    ∧ ((loadPreviewTask path slot dec).isSome ↔ dec.isSome)
    ∧ (dec = none → loadPreviewTask path slot dec = none) := by
  refine ⟨?_, ?_, ?_, ?_⟩
  · rcases dec with _ | i <;>
      by_cases h1 : captured = v1 <;>
      by_cases h2 : captured = v2 <;>
      simp [loadThumbnailTask, h1, h2]
  · intro h
    subst h
    by_cases h1 : captured = v1 <;> simp [loadThumbnailTask, h1]
  · rcases dec with _ | i <;> simp [loadPreviewTask]
  · intro h
    subst h
    rfl

/-- Witness for C3's amended theorem. -/
theorem task_delivery_characterization_witness :
    loadThumbnailTask "a" none 3 3 3 = none :=
  (task_delivery_characterization "a" none 3 3 3 0).2.1 rfl

/-- Claim C4, counterexample: a preview request submitted at generation 0
and bumped before completion is still applied, while a thumbnail request on
the identical schedule is discarded — preview requests are not
generation-tagged like thumbnail requests. -/
theorem preview_results_not_generation_tagged :
    (runPipeline [.submitPrev "p" 0, .bump, .finishPrev true,
        .deliverPrev]).appliedPrevs = [⟨"p", 0, 1⟩]
    ∧ (runPipeline [.submitThumb "p", .bump, .startThumb, .finishThumb true,
        .deliverThumb]).appliedThumbs = [] :=
  ⟨rfl, rfl⟩

/-- Claim C4 (amended): `load_preview` consults the preview cache first and
a hit performs no decode; a miss submits the decode task to the dedicated
2-worker preview executor (never the thumbnail pool) — but with no
generation tag. -/
theorem preview_cache_first_then_preview_pool (cache : List (String × Img))
    (path : String) (slot : Nat) :
    (∀ i, cacheGet cache path = some i →
      load_preview cache path slot = .applyCached i)
    ∧ (cacheGet cache path = none →
      load_preview cache path slot = .submitPreviewPool path slot)
    ∧ previewPoolWorkers = 2 := by
  refine ⟨fun i hi => ?_, fun hn => ?_, rfl⟩
  · simp [load_preview, hi]
  · simp [load_preview, hn]

/-- Witness for C4's amended theorem. -/
theorem preview_cache_first_then_preview_pool_witness :
    load_preview [("p", ⟨4, 3⟩)] "p" 0 = .applyCached ⟨4, 3⟩ :=
  (preview_cache_first_then_preview_pool [("p", ⟨4, 3⟩)] "p" 0).1
    ⟨4, 3⟩ (by decide)

/-- A RAW file whose thumb extraction yields no usable thumb, with distinct
half- and full-resolution demosaic results. -/
def halfDemosaicNoTargetFile : FileModel :=
  ⟨".arw", none, true, .ok none, some ⟨100, 50⟩, some ⟨200, 100⟩, none, id⟩

/-- Claim C6, counterexample: with no `target_max_dimension` at all (the
full-resolution preview path), the demosaic runs at half resolution, not
full: `use_half` defaults to `True` and is only cleared for targets above
3000. -/
theorem half_demosaic_used_without_target :
    load_pil_image halfDemosaicNoTargetFile none
      = halfDemosaicNoTargetFile.rawPostHalf
    ∧ halfDemosaicNoTargetFile.rawPostHalf
      ≠ halfDemosaicNoTargetFile.rawPostFull :=
  ⟨by decide, by decide⟩

/-- Claim C6 (amended): when the demosaic step runs, the half-resolution
variant is chosen exactly when no target is provided or the target is at
most 3000; full resolution is used only for targets above 3000. -/
theorem demosaic_half_selection (f : FileModel) (ms : Option Nat)
    (hopen : f.rawOpen = true)
    (hnothumb : thumbAfterCheck (rawThumbOfRes f.rawThumbRes) ms = none) :
    rawBranchSrc f ms
      = (if use_half_select ms = true then f.rawPostHalf else f.rawPostFull)
    ∧ (use_half_select ms = true ↔ ms = none ∨ ∃ s, ms = some s ∧ s ≤ 3000) := by
  constructor
  · simp [rawBranchSrc, hopen, hnothumb]
  · cases ms with
    | none => simp [use_half_select]
    | some s =>
      simp only [use_half_select, Option.some.injEq]
      constructor
      · intro hh
        right
        exact ⟨s, rfl, by simpa using hh⟩
      · rintro (h | ⟨s1, hs1, hs2⟩)
        · exact absurd h (by simp)
        · cases hs1
          simpa using hs2

/-- Witness for C6's amended theorem. -/
theorem demosaic_half_selection_witness :
    rawBranchSrc halfDemosaicNoTargetFile none = some (Img.mk 100 50) := by
  have h := (demosaic_half_selection halfDemosaicNoTargetFile none rfl rfl).1
  simpa [use_half_select] using h

/-- Claim C7, counterexample: with pending size 100 and last applied size
200, the current `_do_thumb_reload` triggers a reload (the difference 100
exceeds 50) even though the requested size is strictly smaller than the
last applied size. -/
theorem reload_triggered_on_shrink :
    doThumbReload ⟨some 100, true, 200⟩ = (⟨some 100, true, 100⟩, true)
    ∧ 100 < 200 :=
  ⟨by decide, by decide⟩

/-- Claim C7 (amended): when the debounce timer fires, the current
implementation reloads iff a pending size and an open folder exist and the
absolute difference from the last applied size exceeds 50 — in either
direction; on reload the last applied size becomes the pending size,
otherwise the state is unchanged. -/
theorem thumb_reload_trigger_characterization (st : ReloadState) :
    ((doThumbReload st).2 = true ↔
      ∃ p, st.pendingThumbSize = some p ∧ st.currentFolderOpen = true ∧
        50 < ((p : ℤ) - (st.lastLoadedThumbSize : ℤ)).natAbs)
    ∧ ((doThumbReload st).2 = false → (doThumbReload st).1 = st)
    ∧ (∀ p, st.pendingThumbSize = some p → (doThumbReload st).2 = true →
        (doThumbReload st).1 = { st with lastLoadedThumbSize := p }) := by
  obtain ⟨pending, folder, last⟩ := st
  rcases pending with _ | p
  · simp [doThumbReload]
  · cases folder
    · simp [doThumbReload]
    · by_cases hd : 50 < ((p : ℤ) - (last : ℤ)).natAbs <;>
        simp [doThumbReload, hd]

/-- Witness for C7's amended theorem. -/
theorem thumb_reload_trigger_characterization_witness :
    (doThumbReload ⟨some 160, true, 100⟩).1 = ⟨some 160, true, 160⟩ :=
  (thumb_reload_trigger_characterization ⟨some 160, true, 100⟩).2.2 160 rfl
    (by decide)

/-- A file on which every decode strategy fails. -/
def allStrategiesFailFile : FileModel :=
  ⟨".arw", none, false, .ok none, none, none, none, id⟩

/-- Claim C9, counterexample: the legacy decoder in `sqs.py` lets the final
fallback failure escape as an exception (`except Exception: raise`) instead
of converting it into a failure result. -/
theorem legacy_decoder_raises_on_total_failure :
    loadPilImageSqs allStrategiesFailFile none = .error () := rfl

/-- Claim C9 (amended): the current decoder
(`src/src/core/image_loader.py`) never lets an exception escape — its outer
catch-all converts every internal failure into a `None` result. -/
theorem current_decoder_never_raises (f : FileModel) (ms : Option Nat) :
    load_pil_image_exc f ms = Except.ok (load_pil_image f ms)
    ∧ (∀ e, loadBodySrc f ms = .error e → load_pil_image f ms = none) := by
  constructor
  · cases h : loadBodySrc f ms <;>
      simp [load_pil_image, load_pil_image_exc, h]
  · intro e he
    simp [load_pil_image, load_pil_image_exc, he]

/-- Witness for C9's amended theorem. -/
theorem current_decoder_never_raises_witness :
    load_pil_image allStrategiesFailFile none = none :=
  (current_decoder_never_raises allStrategiesFailFile none).2 () rfl

/-- The RAW extension set is disjoint from the HEIF set. -/
theorem raw_ext_not_heif : ∀ s : String, s ∈ rawExtsSrc → s ∉ heifExts := by
  decide

/-- Discarding an undersized thumb leaves the RAW branch exactly as if the
file had no usable embedded thumb at all. -/
theorem rawBranch_thumb_discarded (f : FileModel) (s : Nat) (t : Img)
    (hthumb : f.rawThumbRes = .ok (some t)) (hsmall : max t.w t.h < s) :
    rawBranchSrc f (some s)
      = rawBranchSrc { f with rawThumbRes := .ok none } (some s) := by
  simp [rawBranchSrc, hthumb, rawThumbOfRes, thumbAfterCheck, hsmall]

/-- Claim C5: for a RAW file whose embedded preview has largest dimension
strictly below the provided target, decode behaves exactly as if the file
had no embedded preview — the undersized thumb is never returned, and the
branch falls through to the demosaic step. -/
theorem undersized_raw_thumb_never_returned (f : FileModel) (s : Nat) (t : Img)
    (hraw : strLower f.ext ∈ rawExtsSrc)
    (hthumb : f.rawThumbRes = .ok (some t))
    (hsmall : max t.w t.h < s) :
    load_pil_image f (some s)
      = load_pil_image { f with rawThumbRes := .ok none } (some s)
    ∧ (f.rawOpen = true → rawBranchSrc f (some s)
        = (if use_half_select (some s) = true then f.rawPostHalf
           else f.rawPostFull)) := by
  have hnh : strLower f.ext ∉ heifExts := raw_ext_not_heif _ hraw
  constructor
  · have hb := rawBranch_thumb_discarded f s t hthumb hsmall
    simp [load_pil_image, load_pil_image_exc, loadBodySrc, decodeStage,
      hraw, hnh, hb]
  · intro hopen
    simp [rawBranchSrc, hopen, hthumb, rawThumbOfRes, thumbAfterCheck, hsmall]

/-- A RAW file with an 80x60 embedded thumb and both demosaic variants
available. -/
def rawSmallThumbFile : FileModel :=
  ⟨".arw", none, true, .ok (some ⟨80, 60⟩), some ⟨100, 50⟩,
    some ⟨200, 100⟩, none, id⟩

/-- Witness for C5 at a concrete RAW file and target 100. -/
theorem undersized_raw_thumb_never_returned_witness :
    load_pil_image rawSmallThumbFile (some 100)
      = load_pil_image { rawSmallThumbFile with rawThumbRes := .ok none }
          (some 100) :=
  (undersized_raw_thumb_never_returned rawSmallThumbFile 100 ⟨80, 60⟩
    (by decide) rfl (by decide)).1

/-- `Image.thumbnail` always yields a size when the target and the image
height are positive. -/
theorem pil_thumbnail_isSome (i : Img) (s : Nat) (hs : 0 < s)
    (hh : 0 < i.h) : (pil_thumbnail i s s).isSome := by
  unfold pil_thumbnail
  split_ifs <;> simp_all

/-- Claim C10: a path whose lowercase extension is in neither the HEIF nor
the RAW set is never rejected by extension — it is dispatched to the
general-purpose codec (`Image.open` + forced `load()`), and the decode
fails exactly when that codec fails. -/
theorem unrecognized_ext_uses_general_codec (f : FileModel) (ms : Option Nat)
    (h1 : strLower f.ext ∉ heifExts) (h2 : strLower f.ext ∉ rawExtsSrc) :
    (f.stdDecode = none → load_pil_image f ms = none)
    ∧ (∀ i, f.stdDecode = some i → decodeStage f ms = .ok (f.exifT i))
    ∧ (∀ i, f.stdDecode = some i → ms = none →
        load_pil_image f ms = some (f.exifT i))
    ∧ (∀ i s, f.stdDecode = some i → ms = some s → 0 < s →
        0 < (f.exifT i).h → (load_pil_image f ms).isSome) := by
  refine ⟨fun hn => ?_, fun i hi => ?_, fun i hi hms => ?_, fun i s hi hms hs hh => ?_⟩
  · simp [load_pil_image, load_pil_image_exc, loadBodySrc, decodeStage,
      h1, h2, hn]
  · simp [decodeStage, h1, h2, hi]
  · subst hms
    simp [load_pil_image, load_pil_image_exc, loadBodySrc, decodeStage,
      h1, h2, hi, resizeStage]
  · subst hms
    have hd : decodeStage f (some s) = .ok (f.exifT i) := by
      simp [decodeStage, h1, h2, hi]
    have hr : (resizeStage (some s) (f.exifT i)).isOk := by
      unfold resizeStage
      by_cases hbig : (f.exifT i).w > s ∨ (f.exifT i).h > s
      · have := pil_thumbnail_isSome (f.exifT i) s hs hh
        obtain ⟨r, hrr⟩ := Option.isSome_iff_exists.mp this
        simp [hbig, hrr, Except.isOk, Except.toBool]
      · simp [hbig, Except.isOk, Except.toBool]
    obtain ⟨r, hrr⟩ : ∃ r, resizeStage (some s) (f.exifT i) = .ok r := by
      cases hx : resizeStage (some s) (f.exifT i) with
      | error e => simp [hx, Except.isOk, Except.toBool] at hr
      | ok r => exact ⟨r, rfl⟩
    simp [load_pil_image, load_pil_image_exc, loadBodySrc, hd, hrr]

/-- A file with an extension outside every special set, decodable by the
general-purpose codec. -/
def generalCodecFile : FileModel :=
  ⟨".webp", none, false, .ok none, none, none, some ⟨400, 300⟩, id⟩

/-- Witness for C10 at a concrete unrecognized extension. -/
theorem unrecognized_ext_uses_general_codec_witness :
    (load_pil_image generalCodecFile (some 100)).isSome :=
  (unrecognized_ext_uses_general_codec generalCodecFile (some 100)
    (by decide) (by decide)).2.2.2 ⟨400, 300⟩ 100 rfl rfl
    (by decide) (by decide)

/-- `round_aspect_same` picks between the floor and ceiling of the exact
quotient, clamped to at least 1. -/
theorem round_aspect_same_cases (num den : Nat) :
    round_aspect_same num den = max (num / den) 1 ∨
    round_aspect_same num den = max ((num + den - 1) / den) 1 := by
  simp only [round_aspect_same]
  split_ifs
  · exact Or.inl rfl
  · exact Or.inr rfl

/-- `round_aspect_flip` picks between the floor and ceiling of the exact
quotient, clamped to at least 1. -/
theorem round_aspect_flip_cases (tx w h : Nat) :
    round_aspect_flip tx w h = max ((tx * h) / w) 1 ∨
    round_aspect_flip tx w h = max ((tx * h + w - 1) / w) 1 := by
  simp only [round_aspect_flip]
  split_ifs
  · exact Or.inl rfl
  · exact Or.inl rfl
  · exact Or.inr rfl

/-- Whichever of floor and ceiling of `num / (dd+1)` Pillow picks, after
clamping to 1 the result stays within the target `t` (provided
`num ≤ t * (dd+1)`) and within one denominator of the exact quotient. -/
theorem round_choice_bounds (num dd t c : Nat) (ht : 0 < t)
    (hnum : num ≤ t * (dd + 1))
    (hc : c = num / (dd + 1) ∨ c = (num + dd) / (dd + 1)) :
    max c 1 ≤ t ∧ (((max c 1 : Nat) : ℤ) * ((dd : ℤ) + 1) - (num : ℤ)).natAbs ≤ dd + 1 := by
  have hden : 0 < dd + 1 := Nat.succ_pos dd
  have hfl1 : (num / (dd + 1)) * (dd + 1) ≤ num := Nat.div_mul_le_self num (dd + 1)
  have hfl2 : num < (num / (dd + 1)) * (dd + 1) + (dd + 1) := by
    have hmod := Nat.div_add_mod num (dd + 1)
    have hmlt := Nat.mod_lt num hden
    nlinarith [hmod, hmlt]
  have hce1 : ((num + dd) / (dd + 1)) * (dd + 1) ≤ num + dd :=
    Nat.div_mul_le_self (num + dd) (dd + 1)
  have hce2 : num + dd < ((num + dd) / (dd + 1)) * (dd + 1) + (dd + 1) := by
    have hmod := Nat.div_add_mod (num + dd) (dd + 1)
    have hmlt := Nat.mod_lt (num + dd) hden
    nlinarith [hmod, hmlt]
  have hflce : num / (dd + 1) ≤ (num + dd) / (dd + 1) :=
    Nat.div_le_div_right (Nat.le_add_right num dd)
  have hce_t : (num + dd) / (dd + 1) ≤ t := by
    have h3 : ((num + dd) / (dd + 1)) * (dd + 1) < (t + 1) * (dd + 1) := by
      calc ((num + dd) / (dd + 1)) * (dd + 1) ≤ num + dd := hce1
        _ ≤ t * (dd + 1) + dd := Nat.add_le_add_right hnum dd
        _ < t * (dd + 1) + (dd + 1) := Nat.add_lt_add_left (Nat.lt_succ_self dd) _
        _ = (t + 1) * (dd + 1) := (Nat.succ_mul t (dd + 1)).symm
    have h4 : (num + dd) / (dd + 1) < t + 1 :=
      lt_of_mul_lt_mul_right h3 (Nat.zero_le _)
    omega
  have hc_t : c ≤ t := by
    rcases hc with rfl | rfl
    · exact le_trans hflce hce_t
    · exact hce_t
  refine ⟨max_le hc_t ht, ?_⟩
  rcases hc with rfl | rfl
  · by_cases h0 : num / (dd + 1) = 0
    · rw [h0] at hfl2
      have hnlt : num < dd + 1 := by simpa using hfl2
      rw [h0, show max (0 : Nat) 1 = 1 from rfl]
      omega
    · rw [Nat.max_eq_left (Nat.one_le_iff_ne_zero.mpr h0)]
      have hz1 : ((num / (dd + 1) : Nat) : ℤ) * ((dd : ℤ) + 1) ≤ (num : ℤ) := by
        exact_mod_cast hfl1
      have hz2 : (num : ℤ) < ((num / (dd + 1) : Nat) : ℤ) * ((dd : ℤ) + 1) + ((dd : ℤ) + 1) := by
        exact_mod_cast hfl2
      generalize hA : ((num / (dd + 1) : Nat) : ℤ) * ((dd : ℤ) + 1) = A at hz1 hz2 ⊢
      omega
  · by_cases h0 : (num + dd) / (dd + 1) = 0
    · rw [h0] at hce2
      have hnz : num = 0 := by simp at hce2; omega
      rw [h0, show max (0 : Nat) 1 = 1 from rfl, hnz]
      omega
    · rw [Nat.max_eq_left (Nat.one_le_iff_ne_zero.mpr h0)]
      have hz1 : (((num + dd) / (dd + 1) : Nat) : ℤ) * ((dd : ℤ) + 1) ≤ (num : ℤ) + dd := by
        exact_mod_cast hce1
      have hz2 : (num : ℤ) + dd < (((num + dd) / (dd + 1) : Nat) : ℤ) * ((dd : ℤ) + 1) + ((dd : ℤ) + 1) := by
        exact_mod_cast hce2
      generalize hA : (((num + dd) / (dd + 1) : Nat) : ℤ) * ((dd : ℤ) + 1) = A at hz1 hz2 ⊢
      omega

/-- When the resize branch actually fires (image exceeds the square target
box), `Image.thumbnail` returns dimensions bounded by the target whose
ratio matches the input ratio to within one rounding unit. -/
theorem pil_thumbnail_bounds (i : Img) (s : Nat) (hs : 0 < s)
    (hbig : ¬ (i.w ≤ s ∧ i.h ≤ s)) (out : Img)
    (h : pil_thumbnail i s s = some out) :
    max out.w out.h ≤ s ∧
    ((out.w : ℤ) * (i.h : ℤ) - (i.w : ℤ) * (out.h : ℤ)).natAbs ≤ max i.w i.h := by
  obtain ⟨W, H⟩ := i
  unfold pil_thumbnail at h
  rw [if_neg hbig] at h
  by_cases hh : H = 0
  · rw [if_pos hh] at h
    exact absurd h (by simp)
  rw [if_neg hh] at h
  rw [if_neg (by omega : ¬ s = 0)] at h
  obtain ⟨dd, rfl⟩ : ∃ dd, H = dd + 1 := ⟨H - 1, by omega⟩
  by_cases hbr : W * s ≤ s * (dd + 1)
  · rw [if_pos hbr] at h
    set X := round_aspect_same (s * W) (dd + 1) with hXdef
    obtain rfl := Option.some.inj h
    have hwh : W ≤ dd + 1 := by
      have h2 : W * s ≤ (dd + 1) * s := by
        rw [Nat.mul_comm (dd + 1) s]
        exact hbr
      exact Nat.le_of_mul_le_mul_right h2 hs
    have hnum : s * W ≤ s * (dd + 1) := Nat.mul_le_mul_left s hwh
    have hcase := round_aspect_same_cases (s * W) (dd + 1)
    rw [show s * W + (dd + 1) - 1 = s * W + dd by omega] at hcase
    rcases hcase with hX | hX
    · have hb := round_choice_bounds (s * W) dd s (s * W / (dd + 1)) hs hnum
        (Or.inl rfl)
      rw [← hX] at hb
      refine ⟨max_le hb.1 le_rfl, ?_⟩
      show ((X : ℤ) * ((dd + 1 : Nat) : ℤ) - (W : ℤ) * (s : ℤ)).natAbs
        ≤ max W (dd + 1)
      have heq : (X : ℤ) * ((dd + 1 : Nat) : ℤ) - (W : ℤ) * (s : ℤ)
          = (X : ℤ) * ((dd : ℤ) + 1) - ((s * W : Nat) : ℤ) := by
        push_cast
        ring
      rw [heq]
      exact le_trans hb.2 (Nat.le_max_right W (dd + 1))
    · have hb := round_choice_bounds (s * W) dd s ((s * W + dd) / (dd + 1)) hs
        hnum (Or.inr rfl)
      rw [← hX] at hb
      refine ⟨max_le hb.1 le_rfl, ?_⟩
      show ((X : ℤ) * ((dd + 1 : Nat) : ℤ) - (W : ℤ) * (s : ℤ)).natAbs
        ≤ max W (dd + 1)
      have heq : (X : ℤ) * ((dd + 1 : Nat) : ℤ) - (W : ℤ) * (s : ℤ)
          = (X : ℤ) * ((dd : ℤ) + 1) - ((s * W : Nat) : ℤ) := by
        push_cast
        ring
      rw [heq]
      exact le_trans hb.2 (Nat.le_max_right W (dd + 1))
  · rw [if_neg hbr] at h
    have hW0 : 0 < W := by
      rcases Nat.eq_zero_or_pos W with h0 | h0
      · subst h0
        simp at hbr
      · exact h0
    obtain ⟨d2, rfl⟩ : ∃ d2, W = d2 + 1 := ⟨W - 1, by omega⟩
    set Y := round_aspect_flip s (d2 + 1) (dd + 1) with hYdef
    obtain rfl := Option.some.inj h
    have hhw : dd + 1 ≤ d2 + 1 := by
      have h2 : s * (dd + 1) < (d2 + 1) * s := Nat.lt_of_not_le hbr
      have h3 : (dd + 1) * s < (d2 + 1) * s := by
        rw [Nat.mul_comm (dd + 1) s]
        exact h2
      have h4 : dd + 1 < d2 + 1 := lt_of_mul_lt_mul_right h3 (Nat.zero_le s)
      omega
    have hnum : s * (dd + 1) ≤ s * (d2 + 1) := Nat.mul_le_mul_left s hhw
    have hcase := round_aspect_flip_cases s (d2 + 1) (dd + 1)
    rw [show s * (dd + 1) + (d2 + 1) - 1 = s * (dd + 1) + d2 by omega] at hcase
    rcases hcase with hY | hY
    · have hb := round_choice_bounds (s * (dd + 1)) d2 s
        (s * (dd + 1) / (d2 + 1)) hs hnum (Or.inl rfl)
      rw [← hY] at hb
      refine ⟨max_le le_rfl hb.1, ?_⟩
      show ((s : ℤ) * ((dd + 1 : Nat) : ℤ)
          - ((d2 + 1 : Nat) : ℤ) * (Y : ℤ)).natAbs ≤ max (d2 + 1) (dd + 1)
      have heq : (s : ℤ) * ((dd + 1 : Nat) : ℤ) - ((d2 + 1 : Nat) : ℤ) * (Y : ℤ)
          = -((Y : ℤ) * ((d2 : ℤ) + 1) - ((s * (dd + 1) : Nat) : ℤ)) := by
        push_cast
        ring
      rw [heq, Int.natAbs_neg]
      exact le_trans hb.2 (Nat.le_max_left (d2 + 1) (dd + 1))
    · have hb := round_choice_bounds (s * (dd + 1)) d2 s
        ((s * (dd + 1) + d2) / (d2 + 1)) hs hnum (Or.inr rfl)
      rw [← hY] at hb
      refine ⟨max_le le_rfl hb.1, ?_⟩
      show ((s : ℤ) * ((dd + 1 : Nat) : ℤ)
          - ((d2 + 1 : Nat) : ℤ) * (Y : ℤ)).natAbs ≤ max (d2 + 1) (dd + 1)
      have heq : (s : ℤ) * ((dd + 1 : Nat) : ℤ) - ((d2 + 1 : Nat) : ℤ) * (Y : ℤ)
          = -((Y : ℤ) * ((d2 : ℤ) + 1) - ((s * (dd + 1) : Nat) : ℤ)) := by
        push_cast
        ring
      rw [heq, Int.natAbs_neg]
      exact le_trans hb.2 (Nat.le_max_left (d2 + 1) (dd + 1))

/-- Claim C8: a successful `decode(P, S)` with a provided target `S`
returns an image whose larger dimension is at most `S` and whose aspect
ratio matches that of the decoded, orientation-normalized image to within
integer rounding (the cross products of the dimensions differ by at most
one denominator). -/
theorem decode_bounded_and_aspect_preserved (f : FileModel) (s : Nat)
    (out : Img) (hs : 0 < s)
    (h : load_pil_image f (some s) = some out) :
    max out.w out.h ≤ s ∧
    ∃ mid : Img, decodeStage f (some s) = .ok mid ∧
      ((out.w : ℤ) * (mid.h : ℤ) - (mid.w : ℤ) * (out.h : ℤ)).natAbs
        ≤ max mid.w mid.h := by
  cases hd : decodeStage f (some s) with
  | error e =>
    simp [load_pil_image, load_pil_image_exc, loadBodySrc, hd] at h
  | ok mid =>
    have hr : resizeStage (some s) mid = .ok out := by
      cases hr2 : resizeStage (some s) mid with
      | error e =>
        simp [load_pil_image, load_pil_image_exc, loadBodySrc, hd, hr2] at h
      | ok r =>
        simp [load_pil_image, load_pil_image_exc, loadBodySrc, hd, hr2] at h
        rw [h]
    simp only [resizeStage] at hr
    by_cases hbig : mid.w > s ∨ mid.h > s
    · rw [if_pos hbig] at hr
      cases hp : pil_thumbnail mid s s with
      | none =>
        rw [hp] at hr
        exact absurd hr (by simp)
      | some r =>
        rw [hp] at hr
        obtain rfl : r = out := by
          injection hr
        have hbounds := pil_thumbnail_bounds mid s hs (by omega) r hp
        exact ⟨hbounds.1, mid, rfl, hbounds.2⟩
    · rw [if_neg hbig] at hr
      obtain rfl : mid = out := by
        injection hr
      push_neg at hbig
      refine ⟨max_le hbig.1 hbig.2, mid, rfl, ?_⟩
      simp [Int.mul_comm]

/-- A plain JPEG decodable by the standard codec at 400x300. -/
def aspectRatioFile : FileModel :=
  ⟨".jpg", none, false, .ok none, none, none, some ⟨400, 300⟩, id⟩

/-- Witness for C8: decoding the 400x300 JPEG at target 100 yields 100x75,
within bounds and aspect-faithful. -/
theorem decode_bounded_and_aspect_preserved_witness :
    max (Img.mk 100 75).w (Img.mk 100 75).h ≤ 100 ∧
    ∃ mid : Img, decodeStage aspectRatioFile (some 100) = .ok mid ∧
      (((Img.mk 100 75).w : ℤ) * (mid.h : ℤ)
        - (mid.w : ℤ) * ((Img.mk 100 75).h : ℤ)).natAbs ≤ max mid.w mid.h :=
  decode_bounded_and_aspect_preserved aspectRatioFile 100 ⟨100, 75⟩
    (by decide) (by decide)

/-- Looking a key up in the stamped cache matches looking it up in its
timestamp-erased image. -/
theorem lookup_map_toPair (c : List StampedEntry) (k : String) :
    List.lookup k (c.map StampedEntry.toPair)
      = (c.find? (fun e => e.key == k)).map (fun e => e.img) := by
  induction c with
  | nil => rfl
  | cons e rest ih =>
    simp only [List.map_cons, StampedEntry.toPair, List.lookup_cons,
      List.find?_cons]
    by_cases hk : e.key = k
    · simp [hk]
    · have h1 : (k == e.key) = false := by simp [Ne.symm hk]
      have h2 : (e.key == k) = false := by simp [hk]
      simp [h1, h2, ih]

/-- Refinement invariant tying the stamped cache to the code-level cache:
erasing timestamps gives the code cache, timestamps strictly increase along
the list (oldest access first), every timestamp is in the past, and the
entry count is bounded by the capacity. -/
def CacheInv (st : List StampedEntry × Nat) (code : List (String × Img)) : Prop :=
  st.1.map StampedEntry.toPair = code
  ∧ st.1.Pairwise (fun a b => a.stamp < b.stamp)
  ∧ (∀ e ∈ st.1, e.stamp < st.2)
  ∧ code.length ≤ cacheCapacity

/-- One cache access preserves the refinement invariant. -/
theorem cacheAccess_preserves_inv (c : List StampedEntry) (clock : Nat)
    (code : List (String × Img)) (k : String) (img : Img)
    (hinv : CacheInv (c, clock) code) :
    CacheInv (stampedAccess (c, clock) k img)
      (previewCacheAccess code k img) := by
  obtain ⟨hmap, hpw, hstamp, hlen⟩ := hinv
  have hlook := lookup_map_toPair c k
  rw [hmap] at hlook
  cases hfind : c.find? (fun e => e.key == k) with
  | some e =>
    have hlk : List.lookup k code = some e.img := by
      rw [hlook, hfind]
      rfl
    have hpe : (e.key == k) = true := by
      have h5 := List.find?_some hfind
      simpa using h5
    have hmem : e ∈ c := List.mem_of_find?_eq_some hfind
    have hacc1 : stampedAccess (c, clock) k img
        = (c.eraseP (fun e1 => e1.key == k) ++ [⟨k, e.img, clock⟩], clock + 1) := by
      simp [stampedAccess, hfind]
    have hacc2 : previewCacheAccess code k img
        = code.eraseP (fun pr => pr.1 == k) ++ [(k, e.img)] := by
      simp [previewCacheAccess, hlk]
    have herasemap : (c.eraseP (fun e1 => e1.key == k)).map StampedEntry.toPair
        = code.eraseP (fun pr => pr.1 == k) := by
      rw [← hmap, List.eraseP_map]
      rfl
    rw [hacc1, hacc2]
    refine ⟨?_, ?_, ?_, ?_⟩
    · rw [List.map_append, herasemap]
      rfl
    · apply List.pairwise_append.mpr
      refine ⟨hpw.sublist (List.eraseP_sublist c), by simp, ?_⟩
      intro a ha b hb
      simp only [List.mem_singleton] at hb
      have hac : a ∈ c := (List.eraseP_sublist c).subset ha
      rw [hb]
      exact hstamp a hac
    · intro e1 he1
      simp only [List.mem_append, List.mem_singleton] at he1
      rcases he1 with he1 | he1
      · have : e1 ∈ c := (List.eraseP_sublist c).subset he1
        have := hstamp e1 this
        omega
      · rw [he1]
        exact Nat.lt_succ_self clock
    · have hkmem : StampedEntry.toPair e ∈ code := by
        rw [← hmap]
        exact List.mem_map_of_mem _ hmem
      have hkp : ((StampedEntry.toPair e).1 == k) = true := by
        simpa [StampedEntry.toPair] using hpe
      have hlen2 :=
        List.length_eraseP_of_mem (p := fun pr => pr.1 == k) hkmem hkp
      have hpos : 0 < code.length := List.length_pos.mpr (by
        rintro rfl
        simp at hkmem)
      simp only [List.length_append, List.length_singleton, hlen2]
      omega
  | none =>
    have hlk : List.lookup k code = none := by
      rw [hlook, hfind]
      rfl
    have hacc1 : stampedAccess (c, clock) k img
        = ((if cacheCapacity ≤ c.length then c.tail else c)
            ++ [⟨k, img, clock⟩], clock + 1) := by
      simp [stampedAccess, hfind]
    have hacc2 : previewCacheAccess code k img
        = (if cacheCapacity ≤ code.length then code.tail else code)
            ++ [(k, img)] := by
      simp [previewCacheAccess, hlk]
    have hleneq : code.length = c.length := by
      rw [← hmap, List.length_map]
    rw [hacc1, hacc2]
    by_cases hfull : cacheCapacity ≤ c.length
    · rw [if_pos hfull, if_pos (by omega : cacheCapacity ≤ code.length)]
      refine ⟨?_, ?_, ?_, ?_⟩
      · rw [List.map_append, List.map_tail, hmap]
        rfl
      · apply List.pairwise_append.mpr
        refine ⟨hpw.sublist (List.tail_sublist c), by simp, ?_⟩
        intro a ha b hb
        simp only [List.mem_singleton] at hb
        have hac : a ∈ c := (List.tail_sublist c).subset ha
        rw [hb]
        exact hstamp a hac
      · intro e1 he1
        simp only [List.mem_append, List.mem_singleton] at he1
        rcases he1 with he1 | he1
        · have : e1 ∈ c := (List.tail_sublist c).subset he1
          have := hstamp e1 this
          omega
        · rw [he1]
          exact Nat.lt_succ_self clock
      · have hcap : cacheCapacity = 20 := rfl
        simp only [List.length_append, List.length_singleton, List.length_tail]
        omega
    · rw [if_neg hfull, if_neg (by omega : ¬ cacheCapacity ≤ code.length)]
      refine ⟨?_, ?_, ?_, ?_⟩
      · rw [List.map_append, hmap]
        rfl
      · apply List.pairwise_append.mpr
        refine ⟨hpw, by simp, ?_⟩
        intro a ha b hb
        simp only [List.mem_singleton] at hb
        rw [hb]
        exact hstamp a ha
      · intro e1 he1
        simp only [List.mem_append, List.mem_singleton] at he1
        rcases he1 with he1 | he1
        · have := hstamp e1 he1
          omega
        · rw [he1]
          exact Nat.lt_succ_self clock
      · have hcap : cacheCapacity = 20 := rfl
        simp only [List.length_append, List.length_singleton]
        omega

/-- The refinement invariant holds after any run from the empty cache. -/
theorem stampedRun_inv (ops : List (String × Img)) :
    CacheInv (stampedRun ops) (previewCacheRun ops) := by
  suffices h : ∀ st code, CacheInv st code →
      CacheInv (ops.foldl (fun st1 op => stampedAccess st1 op.1 op.2) st)
        (ops.foldl (fun c op => previewCacheAccess c op.1 op.2) code) by
    exact h ([], 0) [] ⟨rfl, List.Pairwise.nil, by simp, by simp [cacheCapacity]⟩
  induction ops with
  | nil => exact fun st code h => h
  | cons op rest ih =>
    intro st code h
    obtain ⟨c, clock⟩ := st
    exact ih (stampedAccess (c, clock) op.1 op.2)
      (previewCacheAccess code op.1 op.2)
      (cacheAccess_preserves_inv c clock code op.1 op.2 h)

/-- Claim C2: the preview cache discipline of `set_preview_slot` is a
strict LRU cache of capacity 20 — after any access sequence from empty the
entry count never exceeds the capacity; the timestamp-refined view agrees
with the code cache and keeps entries ordered by strictly increasing
last-access stamp; a hit promotes the entry (with its cached image) to the
most-recent end with a fresh stamp; and an insertion into a full cache
evicts exactly the head, whose last-access stamp is older than every other
entry's. -/
theorem preview_cache_lru (ops : List (String × Img)) :
    (previewCacheRun ops).length ≤ cacheCapacity
    ∧ (stampedRun ops).1.map StampedEntry.toPair = previewCacheRun ops
    ∧ (stampedRun ops).1.Pairwise (fun a b => a.stamp < b.stamp)
    ∧ (∀ key loaded i, List.lookup key (previewCacheRun ops) = some i →
        stampedAccess (stampedRun ops) key loaded
          = ((stampedRun ops).1.eraseP (fun e => e.key == key)
              ++ [⟨key, i, (stampedRun ops).2⟩], (stampedRun ops).2 + 1))
    ∧ (∀ key loaded, List.lookup key (previewCacheRun ops) = none →
        cacheCapacity ≤ (previewCacheRun ops).length →
        ∃ e rest, (stampedRun ops).1 = e :: rest
          ∧ (∀ e1 ∈ rest, e.stamp < e1.stamp)
          ∧ stampedAccess (stampedRun ops) key loaded
              = (rest ++ [⟨key, loaded, (stampedRun ops).2⟩],
                 (stampedRun ops).2 + 1)) := by
  obtain ⟨hmap, hpw, hstamp, hlen⟩ := stampedRun_inv ops
  refine ⟨hlen, hmap, hpw, ?_, ?_⟩
  · intro key loaded i hi
    have hlook := lookup_map_toPair (stampedRun ops).1 key
    rw [hmap, hi] at hlook
    cases hfind : (stampedRun ops).1.find? (fun e => e.key == key) with
    | none =>
      rw [hfind] at hlook
      exact absurd hlook (by simp)
    | some e =>
      rw [hfind] at hlook
      have hei : e.img = i := by simpa using hlook.symm
      have hacc : stampedAccess (stampedRun ops) key loaded
          = ((stampedRun ops).1.eraseP (fun e1 => e1.key == key)
              ++ [⟨key, e.img, (stampedRun ops).2⟩], (stampedRun ops).2 + 1) := by
        simp [stampedAccess, hfind]
      rw [hacc, hei]
  · intro key loaded hnone hfull
    have hlook := lookup_map_toPair (stampedRun ops).1 key
    rw [hmap, hnone] at hlook
    cases hfind : (stampedRun ops).1.find? (fun e => e.key == key) with
    | some e =>
      rw [hfind] at hlook
      exact absurd hlook (by simp)
    | none =>
      have hlenc : cacheCapacity ≤ (stampedRun ops).1.length := by
        rw [← hmap, List.length_map] at hfull
        exact hfull
      cases hc : (stampedRun ops).1 with
      | nil =>
        rw [hc] at hlenc
        exact absurd hlenc (by decide)
      | cons e rest =>
        refine ⟨e, rest, rfl, ?_, ?_⟩
        · intro e1 he1
          have hpw2 := hpw
          rw [hc] at hpw2
          exact (List.pairwise_cons.mp hpw2).1 e1 he1
        · have hacc : stampedAccess (stampedRun ops) key loaded
              = ((if cacheCapacity ≤ (stampedRun ops).1.length
                  then (stampedRun ops).1.tail else (stampedRun ops).1)
                  ++ [⟨key, loaded, (stampedRun ops).2⟩],
                 (stampedRun ops).2 + 1) := by
            simp [stampedAccess, hfind]
          rw [hacc, if_pos hlenc, hc]
          rfl

/-- Two-access run used to exercise the hit-promotion clause. -/
def lruWitnessOps : List (String × Img) := [("a", ⟨1, 1⟩), ("b", ⟨2, 2⟩)]

/-- Witness for C2: a hit on "a" promotes it, carrying its cached image,
stamped with the current clock. -/
theorem preview_cache_lru_witness :
    stampedAccess (stampedRun lruWitnessOps) "a" ⟨9, 9⟩
      = ((stampedRun lruWitnessOps).1.eraseP (fun e => e.key == "a")
          ++ [⟨"a", ⟨1, 1⟩, (stampedRun lruWitnessOps).2⟩],
         (stampedRun lruWitnessOps).2 + 1) :=
  (preview_cache_lru lruWitnessOps).2.2.2.1 "a" ⟨9, 9⟩ ⟨1, 1⟩ (by decide)
